import Mathlib

/-!
Verification of the BeatBubble step-sequencer core: the song data model
(`src/core/types.ts`), the pitch utility layer (`src/core/utils.ts`), the pure
song mutation operations (`src/core/ops.ts`) and the lookahead playback
scheduler (`src/audio/engine.ts`), shallowly embedded in Lean.

Conventions of the embedding:
* JavaScript numbers that the code uses integrally are modelled as `Int`
  (audio-clock times, which are fractional, are modelled as `Rat`);
* a thrown JavaScript exception is modelled as `Option.none`, so fallible
  operations return `Option _`;
* `newId()` (the fresh-id generator, whose source file is not part of the
  sources at hand) is modelled by passing the generated id explicitly as a
  `freshId : String` argument, with freshness a hypothesis where it matters;
* TS string note names stay `String`; parsing mirrors the regular expression
  of `noteNameToMidi` character by character.
-/

/-! ## Data model (src/core/types.ts) -/

inductive InstrumentId where
  | pianica
  | piano
  | sine
  deriving DecidableEq, Repr

inductive DrumId where
  | kick
  | snare
  | hihat
  deriving DecidableEq, Repr

structure MelodyNote where
  id : String
  startStep : Int
  durationSteps : Int
  note : String
  velocity : Option Rat := none
  deriving DecidableEq, Repr

structure DrumHit where
  id : String
  step : Int
  drumId : DrumId
  deriving DecidableEq, Repr

structure Constraints where
  minNote : String
  maxNote : String
  allowAccidentals : Bool
  tempoLocked : Bool
  barsLocked : Bool
  drumsEnabled : Bool
  deriving DecidableEq, Repr

structure Melody where
  notes : List MelodyNote
  deriving DecidableEq, Repr

structure Drums where
  hits : List DrumHit
  deriving DecidableEq, Repr

structure Song where
  version : Nat := 1
  bpm : Int
  stepsPerBeat : Int
  bars : Int
  instrument : InstrumentId
  constraints : Constraints
  melody : Melody
  drums : Drums
  deriving DecidableEq, Repr

/-! ## Pitch utility layer (src/core/utils.ts) -/

/-- `clamp(n, min, max) = Math.max(min, Math.min(max, n))`. -/
def clamp (n mi ma : Int) : Int :=
  max mi (min ma n)

/-- `totalSteps(song) = song.bars * 4 * song.stepsPerBeat`. -/
def totalSteps (song : Song) : Int :=
  song.bars * 4 * song.stepsPerBeat

/-- `normalizeDuration(song, startStep, durationSteps)`: clamp to
`[1, totalSteps - startStep]`. -/
def normalizeDuration (song : Song) (startStep durationSteps : Int) : Int :=
  clamp durationSteps 1 (totalSteps song - startStep)

/-- The character class `[A-Ga-g]` of the note-name regular expression,
written out as the set of characters it denotes. -/
def isNoteLetter (c : Char) : Bool :=
  ['A', 'B', 'C', 'D', 'E', 'F', 'G', 'a', 'b', 'c', 'd', 'e', 'f', 'g'].contains c

/-- `NOTE_BASE[letter.toUpperCase()]`: base semitone of a letter, `none` when
the (upper-cased) letter is not a key of the record. -/
def NOTE_BASE (c : Char) : Option Int :=
  match c.toUpper with
  | 'C' => some 0
  | 'D' => some 2
  | 'E' => some 4
  | 'F' => some 5
  | 'G' => some 7
  | 'A' => some 9
  | 'B' => some 11
  | _ => none

/-- One-or-more decimal digits (`\d+`), folded to their value as `parseInt`
does. -/
def parseDigits (cs : List Char) : Option Nat :=
  if cs = [] then none
  else if cs.all Char.isDigit then
    some (cs.foldl (fun a c => a * 10 + (c.toNat - 48)) 0)
  else none

/-- The octave group `-?\d+` of the regular expression, with `parseInt`
semantics for the sign. -/
def parseOctave : List Char → Option Int
  | '-' :: ds => (parseDigits ds).map (fun n : Nat => -(n : Int))
  | ds => (parseDigits ds).map (fun n : Nat => (n : Int))

/-- `noteNameToMidi`: match `^([A-Ga-g])([#b]?)(-?\d+)$`, then
`(octave + 1) * 12 + base` adjusted by the accidental.  A failed match (the
thrown `Invalid note name` error) is `none`.  The greedy optional accidental
needs no backtracking: an octave never starts with `#` or `b`. -/
def noteNameToMidiChars : List Char → Option Int
  | [] => none
  | c :: rest =>
    if isNoteLetter c then
      match NOTE_BASE c with
      | none => none
      | some base =>
        match rest with
        | '#' :: r => (parseOctave r).map (fun o => (o + 1) * 12 + base + 1)
        | 'b' :: r => (parseOctave r).map (fun o => (o + 1) * 12 + base - 1)
        | r => (parseOctave r).map (fun o => (o + 1) * 12 + base)
    else none

def noteNameToMidi (s : String) : Option Int :=
  noteNameToMidiChars s.data

/-- `compareNotes(a, b) = noteNameToMidi(a) - noteNameToMidi(b)`; either parse
failure propagates as a thrown error (`none`). -/
def compareNotes (a b : String) : Option Int := do
  let ma ← noteNameToMidi a
  let mb ← noteNameToMidi b
  pure (ma - mb)

/-- The `MIDI_TO_NOTE` spelling table (sharps preferred). -/
def MIDI_TO_NOTE : List String :=
  "C" :: "C#" :: "D" :: "D#" :: "E" :: "F" ::
    "F#" :: "G" :: "G#" :: "A" :: "A#" :: "B" :: []

/-- The `WHITE_KEYS` semitone classes. -/
def WHITE_KEYS : List Int :=
  [0, 2, 4, 5, 7, 9, 11]

/-- `midiToNoteName`: `Math.floor(midi / 12) - 1` for the octave and the JS
truncating remainder `midi % 12` for the semitone; a negative remainder
indexes outside the table, which JS renders as the string `undefined`. -/
def midiToNoteName (midi : Int) : String :=
  let octave := Int.fdiv midi 12 - 1
  let semitone := Int.tmod midi 12
  (if 0 ≤ semitone then (MIDI_TO_NOTE.getD semitone.toNat "undefined")
   else "undefined") ++ toString octave

/-- `isWhiteKey(midi) = WHITE_KEYS.includes(midi % 12)` with the JS truncating
remainder. -/
def isWhiteKey (midi : Int) : Bool :=
  WHITE_KEYS.contains (Int.tmod midi 12)

/-- The `while (!isWhiteKey(midi)) midi += dir` loop of `transposeNoteName`,
with explicit fuel.  Twelve steps always suffice (`snapToWhite_spec` below),
because every multiple of twelve is a white key, so with fuel 12 this is the
exact loop. -/
def snapToWhite : Nat → Int → Int → Int
  | 0, midi, _ => midi
  | fuel + 1, midi, dir =>
    if isWhiteKey midi then midi else snapToWhite fuel (midi + dir) dir

/-- `transposeNoteName(note, semitones, allowAccidentals)`: shift the midi
value, then if accidentals are not allowed walk semitone by semitone in the
direction of the transposition (`semitones > 0 ? 1 : -1`) to the first white
key. -/
def transposeNoteName (note : String) (semitones : Int) (allowAccidentals : Bool) :
    Option String := do
  let m ← noteNameToMidi note
  let midi := m + semitones
  let snapped := if allowAccidentals then midi
    else snapToWhite 12 midi (if semitones > 0 then 1 else -1)
  pure (midiToNoteName snapped)

/-- `clampNoteName(note, min, max)`: clamp the midi value, then respell. -/
def clampNoteName (note mi ma : String) : Option String := do
  let m ← noteNameToMidi note
  let mmi ← noteNameToMidi mi
  let mma ← noteNameToMidi ma
  pure (midiToNoteName (clamp m mmi mma))

/-- Absolute lower bound of the pitch range. -/
def PITCH_RANGE_MIN : String := "C2"

/-- Absolute upper bound of the pitch range. -/
def PITCH_RANGE_MAX : String := "C7"


/-! ## Default song (src/core/defaults.ts) -/

def DEFAULT_SONG : Song :=
  { version := 1
    bpm := 100
    stepsPerBeat := 4
    bars := 4
    instrument := InstrumentId.pianica
    constraints :=
      { minNote := "C4"
        maxNote := "C5"
        allowAccidentals := false
        tempoLocked := false
        barsLocked := false
        drumsEnabled := true }
    melody := { notes := [] }
    drums := { hits := [] } }

/-! ## Song mutation operations (src/core/ops.ts) -/

/-- `isNoteInRange(note, minNote, maxNote)`:
`compareNotes(note, minNote) >= 0 && compareNotes(note, maxNote) <= 0` with
the JS short-circuit: when the first comparison is negative the second
`compareNotes` call (and any error it would throw) is skipped. -/
def isNoteInRange (note minN maxN : String) : Option Bool := do
  let c1 ← compareNotes note minN
  if c1 < 0 then
    pure false
  else do
    let c2 ← compareNotes note maxN
    pure (decide (c2 ≤ 0))

/-- `notesOverlap(a, b)`: half-open step intervals intersect. -/
def notesOverlap (a b : MelodyNote) : Bool :=
  let aEnd := a.startStep + a.durationSteps
  let bEnd := b.startStep + b.durationSteps
  decide (a.startStep < bEnd ∧ b.startStep < aEnd)

/-- `addMelodyNote(song, {startStep, durationSteps, note})`; the generated
`newId()` is passed in as `freshId`. -/
def addMelodyNote (freshId : String) (song : Song)
    (startStep durationSteps : Int) (note : String) : Option Song := do
  let inRange ← isNoteInRange note song.constraints.minNote song.constraints.maxNote
  if !inRange then
    pure song
  else
    let total := totalSteps song
    if startStep < 0 ∨ total ≤ startStep then
      pure song
    else
      let normalizedDuration := normalizeDuration song startStep durationSteps
      let newNote : MelodyNote :=
        { id := freshId
          startStep := startStep
          durationSteps := normalizedDuration
          note := note }
      let filteredNotes := song.melody.notes.filter (fun existing =>
        if existing.note ≠ note then true else !(notesOverlap existing newNote))
      pure { song with melody := { song.melody with notes := filteredNotes ++ [newNote] } }

/-- `removeMelodyNote(song, noteId)`. -/
def removeMelodyNote (song : Song) (noteId : String) : Song :=
  { song with melody := { song.melody with
      notes := song.melody.notes.filter (fun n => n.id ≠ noteId) } }

/-- `setMelodyNoteDuration(song, noteId, durationSteps)`. -/
def setMelodyNoteDuration (song : Song) (noteId : String) (durationSteps : Int) : Song :=
  { song with melody := { song.melody with
      notes := song.melody.notes.map (fun n =>
        if n.id ≠ noteId then n
        else { n with durationSteps := normalizeDuration song n.startStep durationSteps }) } }

/-- `moveMelodyNote(song, noteId, newStartStep)`. -/
def moveMelodyNote (song : Song) (noteId : String) (newStartStep : Int) : Song :=
  let total := totalSteps song
  { song with melody := { song.melody with
      notes := song.melody.notes.map (fun n =>
        if n.id ≠ noteId then n
        else
          let clampedStart := clamp newStartStep 0 (total - 1)
          let maxDuration := total - clampedStart
          let adjustedDuration := min n.durationSteps maxDuration
          { n with
              startStep := clampedStart
              durationSteps := max 1 adjustedDuration }) } }

/-- `Array.prototype.findIndex`, as an `Option Nat` (TS returns `-1` and the
caller tests `>= 0`). -/
def findIndexP (p : α → Bool) : List α → Option Nat
  | [] => none
  | x :: xs => if p x then some 0 else (findIndexP p xs).map (fun i => i + 1)

/-- `hits.filter((_, i) => i !== existingIndex)`: drop the element at one
index, keeping everything else. -/
def filterOutIndexAux (j : Nat) : Nat → List α → List α
  | _, [] => []
  | i, x :: xs =>
    if i = j then filterOutIndexAux j (i + 1) xs
    else x :: filterOutIndexAux j (i + 1) xs

def filterOutIndex (l : List α) (j : Nat) : List α :=
  filterOutIndexAux j 0 l

/-- The match predicate of `toggleDrumHit`:
`h.step === step && h.drumId === drumId`. -/
def hitMatches (step : Int) (drumId : DrumId) (h : DrumHit) : Bool :=
  decide (h.step = step ∧ h.drumId = drumId)

/-- `toggleDrumHit(song, {step, drumId})`; the generated `newId()` is passed
in as `freshId`. -/
def toggleDrumHit (freshId : String) (song : Song) (step : Int) (drumId : DrumId) : Song :=
  let total := totalSteps song
  if step < 0 ∨ total ≤ step then song
  else
    match findIndexP (hitMatches step drumId) song.drums.hits with
    | some existingIndex =>
      { song with drums := { song.drums with
          hits := filterOutIndex song.drums.hits existingIndex } }
    | none =>
      { song with drums := { song.drums with
          hits := song.drums.hits ++ [{ id := freshId, step := step, drumId := drumId }] } }

/-- `notes.filter((note) => isNoteInRange(note.note, newMin, newMax))` with a
thrown parse error propagating (`none`). -/
def filterInRangeM (minN maxN : String) : List MelodyNote → Option (List MelodyNote)
  | [] => some []
  | n :: ns => do
    let b ← isNoteInRange n.note minN maxN
    let rest ← filterInRangeM minN maxN ns
    pure (if b then n :: rest else rest)

inductive PitchBound where
  | min
  | max
  deriving DecidableEq, Repr

inductive AdjustDir where
  | up
  | down
  deriving DecidableEq, Repr

/-- The shared epilogue of `adjustPitchBound`: prune melody notes outside the
new bounds and return the updated song. -/
def adjustPitchBoundGo (song : Song) (newMinNote newMaxNote : String) : Option Song := do
  let filteredNotes ← filterInRangeM newMinNote newMaxNote song.melody.notes
  pure { song with
    constraints := { song.constraints with minNote := newMinNote, maxNote := newMaxNote }
    melody := { song.melody with notes := filteredNotes } }

/-- `adjustPitchBound(song, bound, direction)`: transpose the chosen bound by
one semitone (under the accidental policy), reject (returning the song) when
the result leaves the absolute range `[C2, C7]` or crosses the other bound,
otherwise update the bound and prune. -/
def adjustPitchBound (song : Song) (bound : PitchBound) (direction : AdjustDir) :
    Option Song := do
  let semitones : Int := if direction = AdjustDir.up then 1 else -1
  let minMidi ← noteNameToMidi PITCH_RANGE_MIN
  let maxMidi ← noteNameToMidi PITCH_RANGE_MAX
  match bound with
  | PitchBound.min => do
    let transposed ← transposeNoteName song.constraints.minNote semitones
      song.constraints.allowAccidentals
    let transposedMidi ← noteNameToMidi transposed
    if transposedMidi < minMidi ∨ maxMidi < transposedMidi then
      pure song
    else do
      let c ← compareNotes transposed song.constraints.maxNote
      if 0 < c then pure song
      else adjustPitchBoundGo song transposed song.constraints.maxNote
  | PitchBound.max => do
    let transposed ← transposeNoteName song.constraints.maxNote semitones
      song.constraints.allowAccidentals
    let transposedMidi ← noteNameToMidi transposed
    if transposedMidi < minMidi ∨ maxMidi < transposedMidi then
      pure song
    else do
      let c ← compareNotes transposed song.constraints.minNote
      if c < 0 then pure song
      else adjustPitchBoundGo song song.constraints.minNote transposed



/-! ## Playback scheduler (src/audio/engine.ts) -/

inductive TransportState where
  | stopped
  | playing
  deriving DecidableEq, Repr

/-- A trigger handed to the sound backend: `playMelodyNote(note, time,
durationSteps * secondsPerStep)` or `playDrum(drumId, time)`. -/
inductive AudioEvent where
  | melody (note : String) (startTime : Rat) (duration : Rat)
  | drum (drumId : DrumId) (startTime : Rat)
  deriving DecidableEq, Repr

/-- `scheduleStep(song, step, time, secondsPerStep)`: triggers for every
melody note whose `startStep` is the step, then for every drum hit on the
step. -/
def scheduleStep (song : Song) (step : Int) (time secondsPerStep : Rat) :
    List AudioEvent :=
  ((song.melody.notes.filter (fun n => n.startStep = step)).map (fun n =>
      AudioEvent.melody n.note time ((n.durationSteps : Rat) * secondsPerStep)))
  ++ ((song.drums.hits.filter (fun h => h.step = step)).map (fun h =>
      AudioEvent.drum h.drumId time))

/-- `this.currentStep++; if (this.currentStep >= total) this.currentStep = 0`. -/
def advanceCursor (step total : Int) : Int :=
  if total ≤ step + 1 then 0 else step + 1

/-- The `while (this.nextNoteTime < this.ctx.currentTime + this.LOOKAHEAD)`
loop of one scheduler tick, with explicit fuel (the loop leaves the lookahead
window after finitely many steps whenever `secondsPerStep > 0`; every concrete
run below uses ample fuel).  Returns the scheduled triggers together with the
updated `nextNoteTime` and `currentStep`. -/
def tickWhile (song : Song) (sps lookahead now : Rat) :
    Nat → Rat → Int → List AudioEvent × Rat × Int
  | 0, nextNoteTime, currentStep => ([], nextNoteTime, currentStep)
  | fuel + 1, nextNoteTime, currentStep =>
    if nextNoteTime < now + lookahead then
      let evs := scheduleStep song currentStep nextNoteTime sps
      let res := tickWhile song sps lookahead now fuel (nextNoteTime + sps)
        (advanceCursor currentStep (totalSteps song))
      (evs ++ res.1, res.2)
    else ([], nextNoteTime, currentStep)

/-- Per-tick scheduling over a list of audio-clock tick times, threading
`nextNoteTime` and `currentStep` through the ticks; the song consulted on a
tick is `songAt i` for the tick's index.  With a constant `songAt` this is
exactly the committed engine (the scheduler closure reads the one captured
`song`); with a genuine reader it is the spec's re-read-per-tick loop. -/
def runTicks (songAt : Nat → Song) (sps lookahead : Rat) (fuel : Nat) :
    Nat → List Rat → Rat → Int → List AudioEvent
  | _, [], _, _ => []
  | i, now :: rest, nextNoteTime, currentStep =>
    let song := songAt i
    let r := tickWhile song sps lookahead now fuel nextNoteTime currentStep
    r.1 ++ runTicks songAt sps lookahead fuel (i + 1) rest r.2.1 r.2.2

/-- The engine's `play` as committed in `src/audio/engine.ts`: `play(song,
onStep)` captures its `song` argument in the scheduler closure, so every tick
schedules from that same play-time snapshot.  `secondsPerStep = 60 / bpm /
stepsPerBeat`, `nextNoteTime = currentTime + 0.05`, `LOOKAHEAD = 0.15`,
cursor starts at 0. -/
def playRunSnapshot (song : Song) (startClock : Rat) (fuel : Nat)
    (tickTimes : List Rat) : List AudioEvent :=
  runTicks (fun _ => song) (60 / (song.bpm : Rat) / (song.stepsPerBeat : Rat))
    (15 / 100) fuel 0 tickTimes (startClock + 5 / 100) 0

/-- Modelled from the spec: the scheduler the specification describes (and
that the caller in `src/app/page.tsx` supplies, passing the reader
`() => songRef.current` to `play`) re-reads the Song from the live source on
every scheduling tick; `reader i` is the live Song at the i-th tick.  The
committed `engine.ts` instead takes a Song value — this definition exists to
state how the two differ.  Timing parameters are read once at play time from
the song the reader yields first, as in the spec's timing model. -/
def playRunReader (reader : Nat → Song) (startClock : Rat) (fuel : Nat)
    (tickTimes : List Rat) : List AudioEvent :=
  runTicks reader (60 / ((reader 0).bpm : Rat) / ((reader 0).stepsPerBeat : Rat))
    (15 / 100) fuel 0 tickTimes (startClock + 5 / 100) 0

/-- The engine's transport-relevant mutable fields: `state`,
`schedulerInterval` (as a flag), `nextNoteTime`, `currentStep`. -/
structure EngineState where
  transport : TransportState
  schedulerActive : Bool
  nextNoteTime : Rat
  currentStep : Int
  deriving DecidableEq, Repr

/-- `stop()`: clear the interval, set state to stopped, reset the cursor;
`nextNoteTime` is left as is. -/
def stopEngine (e : EngineState) : EngineState :=
  { e with
      schedulerActive := false
      transport := TransportState.stopped
      currentStep := 0 }

/-- An event the single-threaded runtime can deliver to the engine after some
point in time: a pending `setTimeout` step callback firing, a queued
scheduler-interval callback running, or another `stop()` call. -/
inductive PendingEvent where
  | fireOnStep (step : Int)
  | schedTick (now : Rat)
  | stopCmd
  deriving DecidableEq, Repr

/-- Deliver one runtime event.  Returns the new engine state and the steps
reported through `onStep` by this delivery.  The `fireOnStep` body is the
guarded `setTimeout` callback of `play` (`if (this.state === "playing")
onStep(stepToReport)`); `schedTick` is the scheduler closure, whose first
line returns unless the state is `playing`; `stopCmd` is `stop()`. -/
def deliverEvent (song : Song) (sps lookahead : Rat) (fuel : Nat)
    (e : EngineState) : PendingEvent → EngineState × List Int
  | PendingEvent.fireOnStep step =>
    (e, if e.transport = TransportState.playing then [step] else [])
  | PendingEvent.schedTick now =>
    if e.transport = TransportState.playing then
      let r := tickWhile song sps lookahead now fuel e.nextNoteTime e.currentStep
      ({ e with nextNoteTime := r.2.1, currentStep := r.2.2 }, [])
    else (e, [])
  | PendingEvent.stopCmd => (stopEngine e, [])

/-- Deliver a whole sequence of runtime events, collecting every step
reported through `onStep`. -/
def deliverAll (song : Song) (sps lookahead : Rat) (fuel : Nat)
    (e : EngineState) : List PendingEvent → EngineState × List Int
  | [] => (e, [])
  | ev :: evs =>
    let r := deliverEvent song sps lookahead fuel e ev
    let rest := deliverAll song sps lookahead fuel r.1 evs
    (rest.1, r.2 ++ rest.2)

/-! ## Specification-level predicates and derived forms -/

/-- Nonempty all-digit character list (`\d+`), as a plain format check. -/
def isDigits (cs : List Char) : Bool :=
  decide (cs ≠ []) && cs.all Char.isDigit

/-- A signed decimal integer literal (`-?\d+`), as a plain format check. -/
def isOctaveString : List Char → Bool
  | '-' :: ds => isDigits ds
  | ds => isDigits ds

/-- The specification's well-formedness of a note name, stated from the
spec's words rather than from the parser: a letter A-G (either case), an
optional `#` or `b` accidental, and a signed integer octave. -/
def wellFormedNoteChars : List Char → Bool
  | [] => false
  | c :: rest =>
    isNoteLetter c &&
    (isOctaveString rest ||
      (match rest with
       | a :: r => (a == '#' || a == 'b') && isOctaveString r
       | [] => false))

def wellFormedNote (s : String) : Bool :=
  wellFormedNoteChars s.data

/-- Two notes collide in the sense of claim C3's pitch reading: equal linear
pitch index (enharmonic spellings identified) and overlapping step
intervals. -/
def samePitchOverlap (a b : MelodyNote) : Bool :=
  decide (noteNameToMidi a.note = noteNameToMidi b.note) && notesOverlap a b

/-- Two notes collide in the sense the code enforces: equal note-name string
and overlapping step intervals. -/
def sameStringOverlap (a b : MelodyNote) : Bool :=
  decide (a.note = b.note) && notesOverlap a b

/-- No two notes of the list collide pitch-index-wise. -/
def pitchOverlapFree : List MelodyNote → Bool
  | [] => true
  | n :: ns => ns.all (fun m => !(samePitchOverlap n m)) && pitchOverlapFree ns

/-- No two notes of the list collide string-wise. -/
def stringOverlapFree : List MelodyNote → Bool
  | [] => true
  | n :: ns => ns.all (fun m => !(sameStringOverlap n m)) && stringOverlapFree ns

/-- One `addMelodyNote` request, together with the id `newId()` hands out for
it. -/
structure AddReq where
  freshId : String
  startStep : Int
  durationSteps : Int
  note : String
  deriving DecidableEq, Repr

/-- A sequence of `addMelodyNote` calls, returning every intermediate song
(a thrown parse error anywhere aborts the computation, as in JS). -/
def addChain (song : Song) : List AddReq → Option (List Song)
  | [] => some []
  | r :: rs => do
    let s' ← addMelodyNote r.freshId song r.startStep r.durationSteps r.note
    let rest ← addChain s' rs
    pure (s' :: rest)

/-- The identity of a drum hit for claim C2's multiset comparison: its cell,
forgetting the generated id. -/
def hitCell (h : DrumHit) : Int × DrumId :=
  (h.step, h.drumId)

/-- Toggling the same drum cell twice, with the two generated ids made
explicit. -/
def toggleTwice (i1 i2 : String) (song : Song) (step : Int) (drumId : DrumId) : Song :=
  toggleDrumHit i2 (toggleDrumHit i1 song step drumId) step drumId

/-- The bound `adjustPitchBound` transposes, as a string. -/
def chosenBound (song : Song) : PitchBound → String
  | PitchBound.min => song.constraints.minNote
  | PitchBound.max => song.constraints.maxNote

/-- The semitone delta of an adjustment direction. -/
def dirSemitones : AdjustDir → Int
  | AdjustDir.up => 1
  | AdjustDir.down => -1

/-- All melody notes of a song satisfy the structural bounds of the data
model: a nonnegative start, a positive duration, and an end inside the
song. -/
def MelodyBoundsOK (song : Song) : Prop :=
  ∀ n ∈ song.melody.notes, 0 ≤ n.startStep ∧ 1 ≤ n.durationSteps ∧
    n.startStep + n.durationSteps ≤ totalSteps song

/-- The note record `addMelodyNote` constructs (velocity absent). -/
def mkNote (freshId : String) (startStep durationSteps : Int) (note : String) : MelodyNote :=
  { id := freshId, startStep := startStep, durationSteps := durationSteps, note := note }

/-- The melody list produced by the accepted branch of `addMelodyNote`:
same-string overlapping notes filtered out, the new note appended. -/
def addedNotes (freshId : String) (song : Song) (startStep durationSteps : Int)
    (note : String) : List MelodyNote :=
  let newNote := mkNote freshId startStep (normalizeDuration song startStep durationSteps) note
  (song.melody.notes.filter (fun existing =>
    if existing.note ≠ note then true else !(notesOverlap existing newNote))) ++ [newNote]

/-! ## Helper lemmas: white keys and the snapping loop -/

lemma isWhiteKey_of_dvd {m : Int} (h : (12 : Int) ∣ m) : isWhiteKey m = true := by
  obtain ⟨q, rfl⟩ := h
  simp [isWhiteKey, WHITE_KEYS, Int.mul_tmod_right]

lemma exists_whiteKey_up (m : Int) :
    ∃ k : Nat, k < 12 ∧ isWhiteKey (m + 1 * k) = true := by
  refine ⟨((-m) % 12).toNat, by omega, isWhiteKey_of_dvd ?_⟩
  omega

lemma exists_whiteKey_down (m : Int) :
    ∃ k : Nat, k < 12 ∧ isWhiteKey (m + (-1) * k) = true := by
  refine ⟨(m % 12).toNat, by omega, isWhiteKey_of_dvd ?_⟩
  omega

/-- The fuelled `snapToWhite` computes exactly the first white key reached
from `midi` by steps of `dir`, provided one is reachable within the fuel. -/
lemma snapToWhite_spec :
    ∀ (fuel : Nat) (midi dir : Int),
      (∃ k : Nat, k < fuel ∧ isWhiteKey (midi + dir * k) = true) →
      ∃ k : Nat, k < fuel ∧ isWhiteKey (midi + dir * k) = true ∧
        (∀ j : Nat, j < k → isWhiteKey (midi + dir * j) = false) ∧
        snapToWhite fuel midi dir = midi + dir * k := by
  intro fuel
  induction fuel with
  | zero => intro midi dir h; omega
  | succ f ih =>
    intro midi dir h
    by_cases hw : isWhiteKey midi = true
    · exact ⟨0, by omega, by simpa using hw, by omega, by simp [snapToWhite, hw]⟩
    · obtain ⟨k, hk, hkw⟩ := h
      have hk0 : k ≠ 0 := by
        rintro rfl
        simp at hkw
        exact hw hkw
      obtain ⟨k', rfl⟩ := Nat.exists_eq_succ_of_ne_zero hk0
      have hshift : ∀ j : Nat, midi + dir * (j + 1 : Nat) = (midi + dir) + dir * j := by
        intro j
        push_cast
        ring
      have hex : ∃ j : Nat, j < f ∧ isWhiteKey ((midi + dir) + dir * j) = true := by
        refine ⟨k', by omega, ?_⟩
        rw [← hshift k']
        exact hkw
      obtain ⟨j, hj, hjw, hjmin, hjeq⟩ := ih (midi + dir) dir hex
      refine ⟨j + 1, by omega, ?_, ?_, ?_⟩
      · rw [hshift j]; exact hjw
      · intro i hi
        match i with
        | 0 => simpa using Bool.eq_false_iff.mpr (fun hc => hw (by simpa using hc))
        | i' + 1 =>
          rw [hshift i']
          exact hjmin i' (by omega)
      · rw [hshift j, ← hjeq]
        simp [snapToWhite, hw]

/-- C7: for every well-formed note name (pitch index `m`) and nonzero
`semitoneDelta`, `transpose(name, delta, allowAccidentals=false)` shifts the
pitch index by `delta` and then steps one semitone at a time in the travel
direction (`delta > 0 ? 1 : -1`) to the FIRST natural pitch: the landing
point is natural, no earlier point in the walk is, and the walk is at most
eleven steps (no overshoot past the nearest natural in that direction). -/
theorem claim_C7_transpose_snaps_to_first_natural (note : String) (delta m : Int)
    (hm : noteNameToMidi note = some m) (_hd : delta ≠ 0) :
    ∃ k : Nat, k < 12 ∧
      isWhiteKey (m + delta + (if delta > 0 then 1 else -1) * k) = true ∧
      (∀ j : Nat, j < k →
        isWhiteKey (m + delta + (if delta > 0 then 1 else -1) * j) = false) ∧
      transposeNoteName note delta false =
        some (midiToNoteName (m + delta + (if delta > 0 then 1 else -1) * k)) := by
  set dir : Int := if delta > 0 then 1 else -1 with hdir
  have hex : ∃ k : Nat, k < 12 ∧ isWhiteKey (m + delta + dir * k) = true := by
    by_cases hpos : delta > 0
    · simpa [hdir, hpos] using exists_whiteKey_up (m + delta)
    · simpa [hdir, hpos] using exists_whiteKey_down (m + delta)
  obtain ⟨k, hk, hkw, hkmin, hkeq⟩ := snapToWhite_spec 12 (m + delta) dir hex
  refine ⟨k, hk, hkw, hkmin, ?_⟩
  simp only [transposeNoteName, hm, Option.bind_eq_bind, Option.some_bind,
    Bool.false_eq_true, if_false]
  rw [← hdir, hkeq]
  rfl

/-- Witness for C7 at the spec's own scenario: transposing `C4` (pitch 60) up
one semitone with accidentals disallowed; the snapped landing point is `D4`. -/
theorem claim_C7_witness :
    (∃ k : Nat, k < 12 ∧
      isWhiteKey (60 + 1 + (if (1 : Int) > 0 then 1 else -1) * k) = true ∧
      (∀ j : Nat, j < k →
        isWhiteKey (60 + 1 + (if (1 : Int) > 0 then 1 else -1) * j) = false) ∧
      transposeNoteName ("C4") 1 false =
        some (midiToNoteName (60 + 1 + (if (1 : Int) > 0 then 1 else -1) * k))) ∧
    transposeNoteName ("C4") 1 false = some ("D4") :=
  ⟨claim_C7_transpose_snaps_to_first_natural ("C4") 1 60 (by decide) (by decide),
   by decide⟩

/-! ## Helper lemmas: note-name parsing -/

lemma parseDigits_isSome (cs : List Char) :
    (parseDigits cs).isSome = isDigits cs := by
  simp only [parseDigits, isDigits]
  split
  · simp_all
  · split <;> simp_all

lemma optionMap_isSome {α β : Type} (f : α → β) (o : Option α) :
    ((o.map f).isSome) = o.isSome := by
  cases o <;> rfl

lemma parseOctave_isSome (cs : List Char) :
    (parseOctave cs).isSome = isOctaveString cs := by
  rcases cs with _ | ⟨a, ds⟩
  · rw [show parseOctave [] = (parseDigits []).map (fun n : Nat => (n : Int)) from rfl,
      optionMap_isSome, parseDigits_isSome]
    rfl
  · by_cases ha : a = '-'
    · subst ha
      rw [show parseOctave ('-' :: ds) = (parseDigits ds).map (fun n : Nat => -(n : Int)) from rfl,
        optionMap_isSome, parseDigits_isSome]
      rfl
    · have h1 : parseOctave (a :: ds) = (parseDigits (a :: ds)).map (fun n : Nat => (n : Int)) := by
        unfold parseOctave
        split
        · simp_all
        · rfl
      have h2 : isOctaveString (a :: ds) = isDigits (a :: ds) := by
        unfold isOctaveString
        split
        · simp_all
        · rfl
      rw [h1, optionMap_isSome, parseDigits_isSome, h2]

lemma isNoteLetter_cases {c : Char} (h : isNoteLetter c = true) :
    c = 'A' ∨ c = 'B' ∨ c = 'C' ∨ c = 'D' ∨ c = 'E' ∨ c = 'F' ∨ c = 'G' ∨
    c = 'a' ∨ c = 'b' ∨ c = 'c' ∨ c = 'd' ∨ c = 'e' ∨ c = 'f' ∨ c = 'g' := by
  have hm := List.mem_of_elem_eq_true h
  simpa using hm

lemma NOTE_BASE_isSome {c : Char} (h : isNoteLetter c = true) :
    (NOTE_BASE c).isSome = true := by
  rcases isNoteLetter_cases h with
    rfl | rfl | rfl | rfl | rfl | rfl | rfl | rfl | rfl | rfl | rfl | rfl | rfl | rfl
  all_goals decide

lemma isOctaveString_hash (r : List Char) : isOctaveString ('#' :: r) = false := by
  unfold isOctaveString
  split
  · simp_all
  · simp [isDigits, List.all_cons, show Char.isDigit '#' = false from rfl]

lemma isOctaveString_bchar (r : List Char) : isOctaveString ('b' :: r) = false := by
  unfold isOctaveString
  split
  · simp_all
  · simp [isDigits, List.all_cons, show Char.isDigit 'b' = false from rfl]

/-- C8: `noteNameToMidi` (the pitch-index parser `toPitchIndex`) throws
exactly on malformed input, and succeeds on exactly the well-formed note
names: a letter A-G (either case, as the source's character class allows),
an optional `#` or `b` accidental, and a signed integer octave.  Thrown
error is modelled as `none`, so the parse succeeds iff the name is
well-formed. -/
theorem claim_C8_parse_succeeds_iff_wellformed (s : String) :
    (noteNameToMidi s).isSome = wellFormedNote s := by
  unfold noteNameToMidi wellFormedNote
  rcases hs : s.data with _ | ⟨c, rest⟩
  · rfl
  · simp only [noteNameToMidiChars, wellFormedNoteChars]
    by_cases hl : isNoteLetter c
    · rw [if_pos hl]
      obtain ⟨b, hb⟩ := Option.isSome_iff_exists.mp (NOTE_BASE_isSome hl)
      rw [hb]
      simp only [hl, Bool.true_and]
      split
      · rename_i r
        rw [optionMap_isSome, parseOctave_isSome, isOctaveString_hash]
        simp
      · rename_i r
        rw [optionMap_isSome, parseOctave_isSome, isOctaveString_bchar]
        simp
      · rename_i hne1 hne2
        rw [optionMap_isSome, parseOctave_isSome]
        rcases rest with _ | ⟨a, r'⟩
        · simp [isOctaveString, isDigits]
        · have ha1 : (a == '#') = false := by
            by_contra hc
            simp at hc
            subst hc
            exact hne1 r' rfl
          have ha2 : (a == 'b') = false := by
            by_contra hc
            simp at hc
            subst hc
            exact hne2 r' rfl
          simp [ha1, ha2]
    · rw [if_neg hl]
      simp [Bool.eq_false_iff.mpr hl]

/-! ## Helper lemmas: range checks -/

lemma isNoteInRange_eval (note minN maxN : String) (v mn mx : Int)
    (hv : noteNameToMidi note = some v) (hmn : noteNameToMidi minN = some mn)
    (hmx : noteNameToMidi maxN = some mx) :
    isNoteInRange note minN maxN = some (decide (mn ≤ v ∧ v ≤ mx)) := by
  simp only [isNoteInRange, compareNotes, hv, hmn, hmx, Option.bind_eq_bind,
    Option.some_bind, pure]
  by_cases h1 : v - mn < 0
  · rw [if_pos h1]
    have : decide (mn ≤ v ∧ v ≤ mx) = false := by
      rw [decide_eq_false_iff_not]
      omega
    rw [this]
  · rw [if_neg h1]
    have : decide (v - mx ≤ 0) = decide (mn ≤ v ∧ v ≤ mx) := by
      rw [decide_eq_decide]
      omega
    rw [this]

/-- C5: a pitch outside `[constraints.minNote, constraints.maxNote]` or a
start step outside `[0, totalSteps)` makes `addMelodyNote` a silent no-op:
it returns the original song and raises no error (the result is `some song`,
never `none`).  `v`, `mn`, `mx` are the pitch indices of the given
well-formed note name and of the song's (well-formed) bounds. -/
theorem claim_C5_addMelodyNote_silent_rejection (freshId : String) (song : Song)
    (startStep durationSteps : Int) (note : String) (v mn mx : Int)
    (hv : noteNameToMidi note = some v)
    (hmn : noteNameToMidi song.constraints.minNote = some mn)
    (hmx : noteNameToMidi song.constraints.maxNote = some mx)
    (hrej : (v < mn ∨ mx < v) ∨ startStep < 0 ∨ totalSteps song ≤ startStep) :
    addMelodyNote freshId song startStep durationSteps note = some song := by
  have hr := isNoteInRange_eval note song.constraints.minNote song.constraints.maxNote
    v mn mx hv hmn hmx
  simp only [addMelodyNote, hr, Option.bind_eq_bind, Option.some_bind]
  by_cases hin : mn ≤ v ∧ v ≤ mx
  · have hd : decide (mn ≤ v ∧ v ≤ mx) = true := decide_eq_true hin
    rw [hd]
    have hstep : startStep < 0 ∨ totalSteps song ≤ startStep := by
      rcases hrej with h | h
      · omega
      · exact h
    simp only [Bool.not_true, Bool.false_eq_true, if_false, if_pos hstep]
    rfl
  · have hd : decide (mn ≤ v ∧ v ≤ mx) = false := decide_eq_false hin
    rw [hd]
    simp

/-- Witness for C5 at the spec's pitch-rejection scenario: the default song
constrains pitches to `[C4, C5]`, and adding a `D5` (pitch 74) at step 0 with
duration 1 returns the very same song with no error. -/
theorem claim_C5_witness :
    addMelodyNote ("fresh") DEFAULT_SONG 0 1 ("D5") = some DEFAULT_SONG :=
  claim_C5_addMelodyNote_silent_rejection ("fresh") DEFAULT_SONG 0 1 ("D5")
    74 60 72 (by decide) (by decide) (by decide) (Or.inl (by decide))

/-- C6: for a melody note with the targeted id and a start step inside the
song, `setMelodyNoteDuration` re-clamps the duration to
`[1, totalSteps - startStep]`; in particular any requested duration of at
least `totalSteps` yields exactly `totalSteps - startStep`, and when no note
carries the id the melody is unchanged. -/
theorem claim_C6_setMelodyNoteDuration_clamps (song : Song) (noteId : String) (d : Int) :
    (∀ n ∈ song.melody.notes, n.id = noteId → 0 ≤ n.startStep →
      n.startStep < totalSteps song →
      ({ n with durationSteps := clamp d 1 (totalSteps song - n.startStep) } ∈
          (setMelodyNoteDuration song noteId d).melody.notes ∧
        1 ≤ clamp d 1 (totalSteps song - n.startStep) ∧
        clamp d 1 (totalSteps song - n.startStep) ≤ totalSteps song - n.startStep ∧
        (totalSteps song ≤ d →
          clamp d 1 (totalSteps song - n.startStep) = totalSteps song - n.startStep))) ∧
    ((∀ n ∈ song.melody.notes, n.id ≠ noteId) →
      (setMelodyNoteDuration song noteId d).melody.notes = song.melody.notes) := by
  constructor
  · intro n hn hid h0 h1
    refine ⟨?_, ?_, ?_, ?_⟩
    · have hfn : ({ n with durationSteps := clamp d 1 (totalSteps song - n.startStep) }) =
          (fun m : MelodyNote => if m.id ≠ noteId then m
            else { m with durationSteps := normalizeDuration song m.startStep d }) n := by
        simp [hid, normalizeDuration]
      rw [hfn]
      exact List.mem_map_of_mem _ hn
    · simp only [clamp]
      omega
    · simp only [clamp]
      omega
    · intro hd
      simp only [clamp]
      omega
  · intro hnone
    show song.melody.notes.map _ = song.melody.notes
    rw [List.map_congr_left (g := id) (fun m hm => by simp [hnone m hm]), List.map_id]

/-- Witness for C6: a concrete song (defaults, one `C4` note of duration 4 at
step 2, 64 total steps); requesting duration 100 clamps it to 62. -/
theorem claim_C6_witness :
    ({ id := "a", startStep := 2, durationSteps := clamp 100 1 (62 : Int),
       note := "C4", velocity := none } : MelodyNote) ∈
      (setMelodyNoteDuration
        { DEFAULT_SONG with melody := { notes := [
            { id := "a", startStep := 2, durationSteps := 4, note := "C4" }] } }
        ("a") 100).melody.notes ∧
    1 ≤ clamp 100 1 (62 : Int) ∧ clamp 100 1 (62 : Int) = 62 := by
  have h := (claim_C6_setMelodyNoteDuration_clamps
    { DEFAULT_SONG with melody := { notes := [
        { id := "a", startStep := 2, durationSteps := 4, note := "C4" }] } }
    ("a") 100).1
    { id := "a", startStep := 2, durationSteps := 4, note := "C4" }
    (by decide) rfl (by decide) (by decide)
  exact ⟨h.1, h.2.1, by decide⟩

/-- C10: `moveMelodyNote` preserves the melody-bounds invariant (nonnegative
start, duration at least 1, end inside the song): the targeted note's start
is clamped to `[0, totalSteps - 1]` and its duration shrunk (kept at least 1)
to fit, every other note is unchanged in place, and the drums and constraints
are untouched. -/
theorem claim_C10_moveMelodyNote_preserves_bounds (song : Song) (noteId : String)
    (newStartStep : Int) (hinv : MelodyBoundsOK song) :
    MelodyBoundsOK (moveMelodyNote song noteId newStartStep) ∧
    (moveMelodyNote song noteId newStartStep).drums = song.drums ∧
    (moveMelodyNote song noteId newStartStep).constraints = song.constraints ∧
    (moveMelodyNote song noteId newStartStep).melody.notes =
      song.melody.notes.map (fun n =>
        if n.id ≠ noteId then n
        else { n with
          startStep := clamp newStartStep 0 (totalSteps song - 1)
          durationSteps := max 1 (min n.durationSteps
            (totalSteps song - clamp newStartStep 0 (totalSteps song - 1))) }) := by
  refine ⟨?_, rfl, rfl, rfl⟩
  intro n' hn'
  have htot : totalSteps (moveMelodyNote song noteId newStartStep) = totalSteps song := rfl
  rw [htot]
  obtain ⟨n, hn, rfl⟩ := List.mem_map.mp hn'
  obtain ⟨h0, h1, h2⟩ := hinv n hn
  by_cases hid : n.id ≠ noteId
  · rw [if_pos hid]
    exact ⟨h0, h1, h2⟩
  · rw [if_neg hid]
    refine ⟨?_, ?_, ?_⟩
    · simp only [clamp]
      omega
    · simp only [clamp]
      omega
    · simp only [clamp]
      omega

/-- Witness for C10: the default song with one bounded note (start 60,
duration 4, 64 total steps); moving it to step 100 keeps every note within
bounds and clamps the target to start 63, duration 1. -/
theorem claim_C10_witness :
    MelodyBoundsOK (moveMelodyNote
      { DEFAULT_SONG with melody := { notes := [
          { id := "a", startStep := 60, durationSteps := 4, note := "C4" }] } }
      ("a") 100) ∧
    (moveMelodyNote
      { DEFAULT_SONG with melody := { notes := [
          { id := "a", startStep := 60, durationSteps := 4, note := "C4" }] } }
      ("a") 100).melody.notes =
      [{ id := "a", startStep := 63, durationSteps := 1, note := "C4" }] := by
  have h := claim_C10_moveMelodyNote_preserves_bounds
    { DEFAULT_SONG with melody := { notes := [
        { id := "a", startStep := 60, durationSteps := 4, note := "C4" }] } }
    ("a") 100
    (by intro n hn; simp at hn; subst hn; refine ⟨by decide, by decide, by decide⟩)
  exact ⟨h.1, by decide⟩

/-! ## Helper lemmas: findIndex and positional removal -/

lemma findIndexP_eq_none {α : Type} {p : α → Bool} :
    ∀ l : List α, findIndexP p l = none ↔ ∀ x ∈ l, p x = false := by
  intro l
  induction l with
  | nil => simp [findIndexP]
  | cons x xs ih =>
    by_cases hx : p x = true
    · simp [findIndexP, hx]
    · simp only [findIndexP, Bool.not_eq_true] at hx
      simp [findIndexP, hx, ih]

lemma findIndexP_eq_some {α : Type} {p : α → Bool} :
    ∀ (l : List α) (i : Nat), findIndexP p l = some i →
      ∃ (as : List α) (b : α) (bs : List α), l = as ++ b :: bs ∧ as.length = i ∧
        p b = true ∧ ∀ x ∈ as, p x = false := by
  intro l
  induction l with
  | nil => intro i h; simp [findIndexP] at h
  | cons x xs ih =>
    intro i h
    by_cases hx : p x = true
    · rw [show findIndexP p (x :: xs) = some 0 from by simp [findIndexP, hx]] at h
      obtain rfl : (0 : Nat) = i := Option.some.inj h
      exact ⟨[], x, xs, rfl, rfl, hx, by simp⟩
    · rw [show findIndexP p (x :: xs) = (findIndexP p xs).map (fun j => j + 1) from by
        simp [findIndexP, hx]] at h
      rcases hj : findIndexP p xs with _ | j
      · rw [hj] at h; simp at h
      · rw [hj] at h
        obtain rfl : j + 1 = i := Option.some.inj h
        obtain ⟨as, b, bs, hl, hlen, hpb, hmin⟩ := ih j hj
        refine ⟨x :: as, b, bs, by simp [hl], by simp [hlen], hpb, ?_⟩
        intro y hy
        rcases List.mem_cons.mp hy with rfl | hy'
        · simpa using hx
        · exact hmin y hy'

lemma filterOutIndexAux_high {α : Type} (j : Nat) :
    ∀ (l : List α) (i : Nat), j < i → filterOutIndexAux j i l = l := by
  intro l
  induction l with
  | nil => intro i _; rfl
  | cons x xs ih =>
    intro i hi
    unfold filterOutIndexAux
    rw [if_neg (by omega), ih (i + 1) (by omega)]

lemma filterOutIndexAux_append {α : Type} (b : α) (bs : List α) :
    ∀ (as : List α) (i : Nat),
      filterOutIndexAux (i + as.length) i (as ++ b :: bs) = as ++ bs := by
  intro as
  induction as with
  | nil =>
    intro i
    simp only [List.nil_append, List.length_nil, Nat.add_zero]
    unfold filterOutIndexAux
    rw [if_pos rfl, filterOutIndexAux_high i bs (i + 1) (by omega)]
  | cons a as' ih =>
    intro i
    simp only [List.cons_append, List.length_cons]
    unfold filterOutIndexAux
    rw [if_neg (by omega)]
    have := ih (i + 1)
    rw [show i + 1 + as'.length = i + (as'.length + 1) from by omega] at this
    rw [this]

lemma filterOutIndex_append {α : Type} (as : List α) (b : α) (bs : List α) :
    filterOutIndex (as ++ b :: bs) as.length = as ++ bs := by
  have := filterOutIndexAux_append b bs as 0
  simpa [filterOutIndex] using this

lemma findIndexP_append_singleton {α : Type} {p : α → Bool} (l : List α) (a : α)
    (hl : ∀ x ∈ l, p x = false) (ha : p a = true) :
    findIndexP p (l ++ [a]) = some l.length := by
  induction l with
  | nil => simp [findIndexP, ha]
  | cons x xs ih =>
    have hx : p x = false := hl x (by simp)
    simp only [List.cons_append, findIndexP, hx, Bool.false_eq_true, if_false,
      List.length_cons]
    rw [List.append_eq, ih (fun y hy => hl y (by simp [hy]))]
    rfl

lemma totalSteps_set_drums (song : Song) (d : Drums) :
    totalSteps { song with drums := d } = totalSteps song := rfl

lemma toggleDrumHit_found (freshId : String) (song : Song) (step : Int)
    (drumId : DrumId) (i : Nat) (hg : ¬(step < 0 ∨ totalSteps song ≤ step))
    (hfi : findIndexP (hitMatches step drumId) song.drums.hits = some i) :
    toggleDrumHit freshId song step drumId =
      { song with drums := { song.drums with
          hits := filterOutIndex song.drums.hits i } } := by
  unfold toggleDrumHit
  rw [if_neg hg, hfi]

lemma toggleDrumHit_notfound (freshId : String) (song : Song) (step : Int)
    (drumId : DrumId) (hg : ¬(step < 0 ∨ totalSteps song ≤ step))
    (hfi : findIndexP (hitMatches step drumId) song.drums.hits = none) :
    toggleDrumHit freshId song step drumId =
      { song with drums := { song.drums with
          hits := song.drums.hits ++ [{ id := freshId, step := step, drumId := drumId }] } } := by
  unfold toggleDrumHit
  rw [if_neg hg, hfi]

/-- C2 counterexample: toggling a present hit twice is NOT structurally the
identity.  The song holds the kick hit `{id := "a"}` at step 0 (in range, 64
total steps); the first toggle removes it and the second re-inserts the cell
with the fresh id `"b2"` (`newId()` never re-issues `"a"`), so the result
differs structurally from the original. -/
theorem claim_C2_counterexample :
    toggleTwice ("b1") ("b2")
      { DEFAULT_SONG with drums := { hits := [{ id := "a", step := 0, drumId := DrumId.kick }] } }
      0 DrumId.kick ≠
    { DEFAULT_SONG with drums := { hits := [{ id := "a", step := 0, drumId := DrumId.kick }] } } := by
  decide

/-- C2 amended: for an in-range step and at most one matching hit, toggling
the same `(step, drumId)` cell twice returns the original song up to the
identity and position of the re-inserted hit: the multiset of `(step,
drumId)` cells is unchanged, every non-drum field is unchanged, and when the
cell was initially absent the round trip is the structural identity. -/
theorem claim_C2_toggle_twice_roundtrip (song : Song) (i1 i2 : String) (step : Int)
    (drumId : DrumId) (h0 : 0 ≤ step) (h1 : step < totalSteps song)
    (huniq : song.drums.hits.countP (hitMatches step drumId) ≤ 1) :
    ((toggleTwice i1 i2 song step drumId).drums.hits.map hitCell).Perm
      (song.drums.hits.map hitCell) ∧
    { toggleTwice i1 i2 song step drumId with drums := song.drums } = song ∧
    ((∀ h ∈ song.drums.hits, hitMatches step drumId h = false) →
      toggleTwice i1 i2 song step drumId = song) := by
  have hguard : ¬(step < 0 ∨ totalSteps song ≤ step) := by omega
  rcases hfi : findIndexP (hitMatches step drumId) song.drums.hits with _ | i
  · -- the cell is initially absent: exact structural round trip
    have hall : ∀ x ∈ song.drums.hits, hitMatches step drumId x = false :=
      (findIndexP_eq_none _).mp hfi
    have hnew : hitMatches step drumId { id := i1, step := step, drumId := drumId } = true := by
      simp [hitMatches]
    have hs1 : toggleDrumHit i1 song step drumId =
        { song with drums := { song.drums with
            hits := song.drums.hits ++ [{ id := i1, step := step, drumId := drumId }] } } :=
      toggleDrumHit_notfound i1 song step drumId hguard hfi
    have hfi2 : findIndexP (hitMatches step drumId)
        (song.drums.hits ++ [{ id := i1, step := step, drumId := drumId }]) =
        some song.drums.hits.length :=
      findIndexP_append_singleton _ _ hall hnew
    have hrem : filterOutIndex
        (song.drums.hits ++ [{ id := i1, step := step, drumId := drumId }])
        song.drums.hits.length = song.drums.hits := by
      simpa using
        filterOutIndex_append song.drums.hits { id := i1, step := step, drumId := drumId } []
    have hs2 : toggleTwice i1 i2 song step drumId = song := by
      unfold toggleTwice
      rw [hs1]
      rw [toggleDrumHit_found i2 _ step drumId song.drums.hits.length
        (by rw [totalSteps_set_drums]; exact hguard) hfi2]
      rw [hrem]
    rw [hs2]
    exact ⟨List.Perm.refl _, rfl, fun _ => rfl⟩
  · -- the cell is initially present at index i
    obtain ⟨as, b, bs, hl, hlen, hpb, hmin⟩ := findIndexP_eq_some _ i hfi
    have hbs : ∀ x ∈ bs, hitMatches step drumId x = false := by
      rw [hl] at huniq
      rw [List.countP_append, List.countP_cons_of_pos _ _ hpb] at huniq
      have hbs0 : bs.countP (hitMatches step drumId) = 0 := by omega
      intro x hx
      have := List.countP_eq_zero.mp hbs0 x hx
      simpa using this
    have hrem : filterOutIndex song.drums.hits i = as ++ bs := by
      rw [hl, ← hlen]
      exact filterOutIndex_append as b bs
    have hs1 : toggleDrumHit i1 song step drumId =
        { song with drums := { song.drums with hits := as ++ bs } } := by
      rw [toggleDrumHit_found i1 song step drumId i hguard hfi, hrem]
    have hfi2 : findIndexP (hitMatches step drumId) (as ++ bs) = none := by
      rw [findIndexP_eq_none]
      intro x hx
      rcases List.mem_append.mp hx with hx' | hx'
      · exact hmin x hx'
      · exact hbs x hx'
    have hs2 : toggleTwice i1 i2 song step drumId =
        { song with drums := { song.drums with
            hits := (as ++ bs) ++ [{ id := i2, step := step, drumId := drumId }] } } := by
      unfold toggleTwice
      rw [hs1]
      rw [toggleDrumHit_notfound i2 _ step drumId
        (by rw [totalSteps_set_drums]; exact hguard) hfi2]
    have hcellb : hitCell b = (step, drumId) := by
      simp only [hitMatches, decide_eq_true_eq] at hpb
      simp [hitCell, hpb.1, hpb.2]
    refine ⟨?_, ?_, ?_⟩
    · rw [hs2, hl]
      simp only [List.map_append, List.map_cons, List.map_nil, hcellb]
      have hq : hitCell { id := i2, step := step, drumId := drumId } = (step, drumId) := rfl
      rw [hq]
      exact List.Perm.trans (List.perm_append_singleton _ _) (List.perm_middle).symm
    · rw [hs2]
    · intro habs
      exact absurd hpb (by simp [habs b (by rw [hl]; simp)])

/-- Witness for the amended C2 at a concrete song with the kick cell `(0,
kick)` present (id `"a"`, 64 total steps): the double toggle preserves the
cell multiset and every non-drum field. -/
theorem claim_C2_roundtrip_witness :
    ((toggleTwice ("b1") ("b2")
        { DEFAULT_SONG with drums := { hits := [{ id := "a", step := 0, drumId := DrumId.kick }] } }
        0 DrumId.kick).drums.hits.map hitCell).Perm
      (({ DEFAULT_SONG with drums := { hits := [{ id := "a", step := 0, drumId := DrumId.kick }] } } : Song).drums.hits.map hitCell) ∧
    { toggleTwice ("b1") ("b2")
        { DEFAULT_SONG with drums := { hits := [{ id := "a", step := 0, drumId := DrumId.kick }] } }
        0 DrumId.kick with
      drums := ({ DEFAULT_SONG with drums := { hits := [{ id := "a", step := 0, drumId := DrumId.kick }] } } : Song).drums } =
      { DEFAULT_SONG with drums := { hits := [{ id := "a", step := 0, drumId := DrumId.kick }] } } ∧
    ((∀ h ∈ ({ DEFAULT_SONG with drums := { hits := [{ id := "a", step := 0, drumId := DrumId.kick }] } } : Song).drums.hits,
        hitMatches 0 DrumId.kick h = false) →
      toggleTwice ("b1") ("b2")
        { DEFAULT_SONG with drums := { hits := [{ id := "a", step := 0, drumId := DrumId.kick }] } }
        0 DrumId.kick =
        { DEFAULT_SONG with drums := { hits := [{ id := "a", step := 0, drumId := DrumId.kick }] } }) :=
  claim_C2_toggle_twice_roundtrip
    { DEFAULT_SONG with drums := { hits := [{ id := "a", step := 0, drumId := DrumId.kick }] } }
    ("b1") ("b2") 0 DrumId.kick (by decide) (by decide) (by decide)

/-! ## Helper lemmas: melody overlap -/

lemma stringOverlapFree_iff_pairwise :
    ∀ l : List MelodyNote,
      stringOverlapFree l = true ↔ l.Pairwise (fun a b => sameStringOverlap a b = false) := by
  intro l
  induction l with
  | nil => simp [stringOverlapFree]
  | cons n ns ih =>
    rw [List.pairwise_cons, ← ih]
    simp only [stringOverlapFree, Bool.and_eq_true, List.all_eq_true, Bool.not_eq_true']

/-- Inversion of `addMelodyNote`: a successful call either rejected (same
song) or produced the filtered-plus-appended melody. -/
lemma addMelodyNote_inv (freshId : String) (song : Song) (startStep durationSteps : Int)
    (note : String) (s' : Song)
    (h : addMelodyNote freshId song startStep durationSteps note = some s') :
    s' = song ∨
    s' = { song with melody := { song.melody with
      notes := addedNotes freshId song startStep durationSteps note } } := by
  unfold addMelodyNote at h
  rcases hin : isNoteInRange note song.constraints.minNote song.constraints.maxNote with
    _ | b
  · rw [hin] at h
    simp at h
  · rw [hin] at h
    simp only [Option.bind_eq_bind, Option.some_bind] at h
    rcases b with _ | _
    · simp only [Bool.not_false, if_true] at h
      exact Or.inl (Option.some.inj h).symm
    · simp only [Bool.not_true, Bool.false_eq_true, if_false] at h
      by_cases hs : startStep < 0 ∨ totalSteps song ≤ startStep
      · rw [if_pos hs] at h
        exact Or.inl (Option.some.inj h).symm
      · rw [if_neg hs] at h
        exact Or.inr (Option.some.inj h).symm

/-- The accepted branch of `addMelodyNote`, explicitly. -/
lemma addMelodyNote_accepted (freshId : String) (song : Song)
    (startStep durationSteps : Int) (note : String)
    (hin : isNoteInRange note song.constraints.minNote song.constraints.maxNote = some true)
    (h0 : 0 ≤ startStep) (h1 : startStep < totalSteps song) :
    addMelodyNote freshId song startStep durationSteps note =
    some { song with melody := { song.melody with
      notes := addedNotes freshId song startStep durationSteps note } } := by
  unfold addMelodyNote
  rw [hin]
  simp only [Option.bind_eq_bind, Option.some_bind, Bool.not_true,
    Bool.false_eq_true, if_false]
  rw [if_neg (by omega)]
  rfl

/-- One `addMelodyNote` call preserves freedom from same-string overlaps. -/
lemma addMelodyNote_preserves_stringOverlapFree (freshId : String) (song : Song)
    (startStep durationSteps : Int) (note : String) (s' : Song)
    (h : addMelodyNote freshId song startStep durationSteps note = some s')
    (hfree : stringOverlapFree song.melody.notes = true) :
    stringOverlapFree s'.melody.notes = true := by
  rcases addMelodyNote_inv freshId song startStep durationSteps note s' h with rfl | rfl
  · exact hfree
  · rw [stringOverlapFree_iff_pairwise]
    rw [stringOverlapFree_iff_pairwise] at hfree
    show (addedNotes freshId song startStep durationSteps note).Pairwise _
    unfold addedNotes
    rw [List.pairwise_append]
    refine ⟨hfree.sublist (List.filter_sublist _), List.pairwise_singleton _ _, ?_⟩
    intro x hx y hy
    rw [List.mem_singleton] at hy
    subst hy
    obtain ⟨hxmem, hxpred⟩ := List.mem_filter.mp hx
    by_cases hnote : x.note = note
    · rw [if_neg (by simpa using hnote)] at hxpred
      simp only [Bool.not_eq_true'] at hxpred
      simp only [sameStringOverlap, hxpred, Bool.and_false]
    · simp only [sameStringOverlap, mkNote]
      rw [decide_eq_false hnote]
      rw [Bool.false_and]

/-- C3 counterexample: with pitch identity read as the linear pitch index
(enharmonic spellings identified), `addMelodyNote` does NOT preserve the
overlap invariant.  The song holds `B#3` (pitch 60) on steps `[0, 1)` and is
pitch-overlap-free; adding `C4` (also pitch 60, inside the `[C4, C5]`
constraint range) on the same step is accepted and removes nothing, because
the code compares note-name STRINGS, leaving two overlapping notes of pitch
60. -/
theorem claim_C3_counterexample :
    pitchOverlapFree
      ({ DEFAULT_SONG with melody := { notes :=
          [{ id := "a", startStep := 0, durationSteps := 1, note := "B#3" }] } } : Song).melody.notes = true ∧
    addMelodyNote ("b")
      { DEFAULT_SONG with melody := { notes :=
          [{ id := "a", startStep := 0, durationSteps := 1, note := "B#3" }] } }
      0 1 ("C4") =
      some { DEFAULT_SONG with melody := { notes :=
          [{ id := "a", startStep := 0, durationSteps := 1, note := "B#3" },
           { id := "b", startStep := 0, durationSteps := 1, note := "C4" }] } } ∧
    pitchOverlapFree
      [{ id := "a", startStep := 0, durationSteps := 1, note := "B#3" },
       { id := "b", startStep := 0, durationSteps := 1, note := "C4" }] = false :=
  ⟨by decide, by decide, by decide⟩

/-- C3 amended: with pitch identity taken as the literal note-name string
(the comparison the code performs), the invariant does hold: every
intermediate and final song of any `addMelodyNote` sequence applied to a
song with no same-string overlaps again has none; and an accepted
`addMelodyNote` removes in full every existing note with the same note
string whose interval overlaps the inserted note's interval (notes of the
same pitch but a different spelling are kept). -/
theorem claim_C3_addMelodyNote_string_overlap :
    (∀ (song : Song) (reqs : List AddReq) (l : List Song),
      stringOverlapFree song.melody.notes = true →
      addChain song reqs = some l →
      ∀ s' ∈ l, stringOverlapFree s'.melody.notes = true) ∧
    (∀ (freshId : String) (song : Song) (startStep durationSteps : Int) (note : String),
      isNoteInRange note song.constraints.minNote song.constraints.maxNote = some true →
      0 ≤ startStep → startStep < totalSteps song →
      ∃ s', addMelodyNote freshId song startStep durationSteps note = some s' ∧
        ∀ n ∈ song.melody.notes, n.note = note →
          notesOverlap n
            (mkNote freshId startStep (normalizeDuration song startStep durationSteps) note) = true →
          n.id ≠ freshId →
          n ∉ s'.melody.notes) := by
  constructor
  · intro song reqs
    induction reqs generalizing song with
    | nil =>
      intro l _ hc s' hs'
      obtain rfl : ([] : List Song) = l := Option.some.inj hc
      simp at hs'
    | cons r rs ih =>
      intro l hfree hc s' hs'
      simp only [addChain, Option.bind_eq_bind] at hc
      rcases ha : addMelodyNote r.freshId song r.startStep r.durationSteps r.note with
        _ | s1
      · rw [ha] at hc; simp at hc
      · rw [ha] at hc
        simp only [Option.some_bind] at hc
        rcases hrest : addChain s1 rs with _ | rest
        · rw [hrest] at hc; simp at hc
        · rw [hrest] at hc
          simp only [Option.some_bind] at hc
          obtain rfl : s1 :: rest = l := Option.some.inj hc
          have hfree1 : stringOverlapFree s1.melody.notes = true :=
            addMelodyNote_preserves_stringOverlapFree r.freshId song r.startStep
              r.durationSteps r.note s1 ha hfree
          rcases List.mem_cons.mp hs' with rfl | hm
          · exact hfree1
          · exact ih s1 rest hfree1 hrest s' hm
  · intro freshId song startStep durationSteps note hin h0 h1
    refine ⟨_, addMelodyNote_accepted freshId song startStep durationSteps note hin h0 h1, ?_⟩
    intro n hn hnote hovl hid hmem
    have hmem2 : n ∈ addedNotes freshId song startStep durationSteps note := hmem
    unfold addedNotes at hmem2
    simp only [List.mem_append, List.mem_singleton] at hmem2
    rcases hmem2 with hmem2 | hmem2
    · obtain ⟨_, hpred⟩ := List.mem_filter.mp hmem2
      rw [if_neg (by simpa using hnote)] at hpred
      rw [hovl] at hpred
      simp at hpred
    · exact hid (by rw [hmem2]; rfl)

/-- Witness for the amended C3 at the spec's last-write-wins scenario: in the
default song, add `C4` on steps `[0, 4)` and then `C4` on steps `[2, 6)`;
the second call removes the first note, and the final intermediate song is
overlap-free. -/
theorem claim_C3_witness :
    stringOverlapFree
      ({ DEFAULT_SONG with melody := { notes :=
          [{ id := "n2", startStep := 2, durationSteps := 4, note := "C4" }] } } : Song).melody.notes = true :=
  claim_C3_addMelodyNote_string_overlap.1 DEFAULT_SONG
    [{ freshId := "n1", startStep := 0, durationSteps := 4, note := "C4" },
     { freshId := "n2", startStep := 2, durationSteps := 4, note := "C4" }]
    [{ DEFAULT_SONG with melody := { notes :=
        [{ id := "n1", startStep := 0, durationSteps := 4, note := "C4" }] } },
     { DEFAULT_SONG with melody := { notes :=
        [{ id := "n2", startStep := 2, durationSteps := 4, note := "C4" }] } }]
    (by decide) (by decide)
    { DEFAULT_SONG with melody := { notes :=
        [{ id := "n2", startStep := 2, durationSteps := 4, note := "C4" }] } }
    (by decide)

/-! ## Helper lemmas: midi round trip and transposition bounds -/

lemma midi_roundtrip_nat :
    ∀ k : Nat, k < 109 → noteNameToMidi (midiToNoteName (24 + (k : Int))) = some (24 + (k : Int)) := by
  decide

lemma midi_roundtrip_int (x : Int) (h1 : 24 ≤ x) (h2 : x ≤ 132) :
    noteNameToMidi (midiToNoteName x) = some x := by
  have hk : x = 24 + (((x - 24).toNat : Nat) : Int) := by omega
  rw [hk]
  exact midi_roundtrip_nat (x - 24).toNat (by omega)

lemma transposeNoteName_eval (note : String) (semitones : Int) (acc : Bool) (m : Int)
    (hm : noteNameToMidi note = some m) :
    transposeNoteName note semitones acc =
      some (midiToNoteName (if acc then m + semitones
        else snapToWhite 12 (m + semitones) (if semitones > 0 then 1 else -1))) := by
  unfold transposeNoteName
  rw [hm]
  cases acc <;> simp

lemma snapToWhite_bounds (midi dir : Int) (hdir : dir = 1 ∨ dir = -1) :
    midi - 11 ≤ snapToWhite 12 midi dir ∧ snapToWhite 12 midi dir ≤ midi + 11 := by
  rcases hdir with rfl | rfl
  · obtain ⟨k, hk, _, _, heq⟩ := snapToWhite_spec 12 midi 1 (exists_whiteKey_up midi)
    rw [heq]
    omega
  · obtain ⟨k, hk, _, _, heq⟩ := snapToWhite_spec 12 midi (-1) (exists_whiteKey_down midi)
    rw [heq]
    omega

lemma filterInRangeM_total (minN maxN : String) (vmn vmx : Int)
    (hmn : noteNameToMidi minN = some vmn) (hmx : noteNameToMidi maxN = some vmx) :
    ∀ notes : List MelodyNote, (∀ n ∈ notes, (noteNameToMidi n.note).isSome = true) →
      ∃ l, filterInRangeM minN maxN notes = some l ∧
        ∀ n ∈ l, ∃ v, noteNameToMidi n.note = some v ∧ vmn ≤ v ∧ v ≤ vmx := by
  intro notes
  induction notes with
  | nil => intro _; exact ⟨[], rfl, by simp⟩
  | cons n ns ih =>
    intro hall
    obtain ⟨v, hv⟩ := Option.isSome_iff_exists.mp (hall n (by simp))
    obtain ⟨l, hl, hsound⟩ := ih (fun x hx => hall x (by simp [hx]))
    have hr := isNoteInRange_eval n.note minN maxN v vmn vmx hv hmn hmx
    by_cases hd : vmn ≤ v ∧ v ≤ vmx
    · refine ⟨n :: l, ?_, ?_⟩
      · unfold filterInRangeM
        rw [hr]
        simp only [Option.bind_eq_bind, Option.some_bind]
        rw [hl]
        simp [decide_eq_true hd]
      · intro x hx
        rcases List.mem_cons.mp hx with rfl | hx'
        · exact ⟨v, hv, hd.1, hd.2⟩
        · exact hsound x hx'
    · refine ⟨l, ?_, hsound⟩
      unfold filterInRangeM
      rw [hr]
      simp only [Option.bind_eq_bind, Option.some_bind]
      rw [hl]
      simp [decide_eq_false hd]

lemma adjustPitchBoundGo_eval (song : Song) (newMin newMax : String)
    (l : List MelodyNote) (hfil : filterInRangeM newMin newMax song.melody.notes = some l) :
    adjustPitchBoundGo song newMin newMax =
      some { song with
        constraints := { song.constraints with minNote := newMin, maxNote := newMax }
        melody := { song.melody with notes := l } } := by
  unfold adjustPitchBoundGo
  rw [hfil]
  rfl

lemma adjustPitchBound_min_eval (song : Song) (direction : AdjustDir) (t : String)
    (tm mx : Int)
    (ht : transposeNoteName song.constraints.minNote
      (if direction = AdjustDir.up then (1 : Int) else -1)
      song.constraints.allowAccidentals = some t)
    (htm : noteNameToMidi t = some tm)
    (hmx : noteNameToMidi song.constraints.maxNote = some mx) :
    adjustPitchBound song PitchBound.min direction =
      if tm < 36 ∨ 96 < tm then some song
      else if 0 < tm - mx then some song
      else adjustPitchBoundGo song t song.constraints.maxNote := by
  unfold adjustPitchBound
  rw [show noteNameToMidi PITCH_RANGE_MIN = some (36 : Int) from by decide]
  rw [show noteNameToMidi PITCH_RANGE_MAX = some (96 : Int) from by decide]
  simp only [Option.bind_eq_bind, Option.some_bind]
  rw [ht]
  simp only [Option.some_bind]
  rw [htm]
  simp only [Option.some_bind]
  rw [show compareNotes t song.constraints.maxNote = some (tm - mx) from by
    simp [compareNotes, htm, hmx]]
  simp only [Option.some_bind]
  rfl

lemma adjustPitchBound_max_eval (song : Song) (direction : AdjustDir) (t : String)
    (tm mn : Int)
    (ht : transposeNoteName song.constraints.maxNote
      (if direction = AdjustDir.up then (1 : Int) else -1)
      song.constraints.allowAccidentals = some t)
    (htm : noteNameToMidi t = some tm)
    (hmn : noteNameToMidi song.constraints.minNote = some mn) :
    adjustPitchBound song PitchBound.max direction =
      if tm < 36 ∨ 96 < tm then some song
      else if tm - mn < 0 then some song
      else adjustPitchBoundGo song song.constraints.minNote t := by
  unfold adjustPitchBound
  rw [show noteNameToMidi PITCH_RANGE_MIN = some (36 : Int) from by decide]
  rw [show noteNameToMidi PITCH_RANGE_MAX = some (96 : Int) from by decide]
  simp only [Option.bind_eq_bind, Option.some_bind]
  rw [ht]
  simp only [Option.some_bind]
  rw [htm]
  simp only [Option.some_bind]
  rw [show compareNotes t song.constraints.minNote = some (tm - mn) from by
    simp [compareNotes, htm, hmn]]
  simp only [Option.some_bind]
  rfl

lemma dirSemitones_eq (direction : AdjustDir) :
    dirSemitones direction = (if direction = AdjustDir.up then (1 : Int) else -1) := by
  rcases direction <;> rfl

lemma dirSemitones_cases (direction : AdjustDir) :
    dirSemitones direction = 1 ∨ dirSemitones direction = -1 := by
  rcases direction
  · exact Or.inl rfl
  · exact Or.inr rfl

/-- C4: `adjustPitchBound` either (a) returns the original song unchanged when
the one-semitone transposition of the chosen bound (under the song's
accidental policy) leaves the absolute range `[C2, C7]` (pitch 36 to 96) or
crosses the other bound, or (b) returns a song whose chosen bound equals that
transposition, with the other bound and the drums untouched, in which every
remaining melody note's pitch lies within the new `[minNote, maxNote]` — the
pruning is part of the same returned value.  `mn`, `mx` are the pitch indices
of the song's well-formed bounds, both within the absolute range, and every
melody note name is well-formed. -/
theorem claim_C4_adjustPitchBound_spec (song : Song) (bound : PitchBound)
    (direction : AdjustDir) (mn mx : Int)
    (hmn : noteNameToMidi song.constraints.minNote = some mn)
    (hmx : noteNameToMidi song.constraints.maxNote = some mx)
    (hmn1 : 36 ≤ mn) (hmn2 : mn ≤ 96) (hmx1 : 36 ≤ mx) (hmx2 : mx ≤ 96)
    (hnotes : ∀ n ∈ song.melody.notes, (noteNameToMidi n.note).isSome = true) :
    ∃ t tm,
      transposeNoteName (chosenBound song bound) (dirSemitones direction)
        song.constraints.allowAccidentals = some t ∧
      noteNameToMidi t = some tm ∧
      (((tm < 36 ∨ 96 < tm ∨ (bound = PitchBound.min ∧ mx < tm) ∨
          (bound = PitchBound.max ∧ tm < mn)) ∧
        adjustPitchBound song bound direction = some song) ∨
       (¬(tm < 36 ∨ 96 < tm ∨ (bound = PitchBound.min ∧ mx < tm) ∨
          (bound = PitchBound.max ∧ tm < mn)) ∧
        ∃ song' nmn nmx,
          adjustPitchBound song bound direction = some song' ∧
          chosenBound song' bound = t ∧
          (bound = PitchBound.min → song'.constraints.maxNote = song.constraints.maxNote) ∧
          (bound = PitchBound.max → song'.constraints.minNote = song.constraints.minNote) ∧
          song'.drums = song.drums ∧
          noteNameToMidi song'.constraints.minNote = some nmn ∧
          noteNameToMidi song'.constraints.maxNote = some nmx ∧
          ∀ n ∈ song'.melody.notes, ∃ v, noteNameToMidi n.note = some v ∧
            nmn ≤ v ∧ v ≤ nmx)) := by
  have hdira : (if dirSemitones direction > 0 then (1 : Int) else -1) = 1 ∨
      (if dirSemitones direction > 0 then (1 : Int) else -1) = -1 := by
    by_cases h : dirSemitones direction > 0
    · exact Or.inl (if_pos h)
    · exact Or.inr (if_neg h)
  rcases bound
  · -- bound = min
    have ht := transposeNoteName_eval song.constraints.minNote (dirSemitones direction)
      song.constraints.allowAccidentals mn hmn
    set tmVal := (if song.constraints.allowAccidentals then mn + dirSemitones direction
      else snapToWhite 12 (mn + dirSemitones direction)
        (if dirSemitones direction > 0 then 1 else -1)) with htmVal
    have hb : 24 ≤ tmVal ∧ tmVal ≤ 132 := by
      rw [htmVal]
      rcases dirSemitones_cases direction with h1 | h1 <;>
        rcases hacc : song.constraints.allowAccidentals with _ | _ <;>
        simp only [if_true, if_false, Bool.false_eq_true] <;>
        first
          | (constructor <;> omega)
          | (have hsb := snapToWhite_bounds (mn + dirSemitones direction)
              (if dirSemitones direction > 0 then 1 else -1) hdira
             constructor <;> omega)
    have hparse : noteNameToMidi (midiToNoteName tmVal) = some tmVal :=
      midi_roundtrip_int tmVal hb.1 hb.2
    have ht' : transposeNoteName song.constraints.minNote
        (if direction = AdjustDir.up then (1 : Int) else -1)
        song.constraints.allowAccidentals = some (midiToNoteName tmVal) := by
      rw [← dirSemitones_eq]
      exact ht
    have heval := adjustPitchBound_min_eval song direction (midiToNoteName tmVal)
      tmVal mx ht' hparse hmx
    refine ⟨midiToNoteName tmVal, tmVal, ht, hparse, ?_⟩
    by_cases hg1 : tmVal < 36 ∨ 96 < tmVal
    · left
      refine ⟨by tauto, ?_⟩
      rw [heval, if_pos hg1]
    · by_cases hg2 : mx < tmVal
      · left
        refine ⟨Or.inr (Or.inr (Or.inl ⟨rfl, hg2⟩)), ?_⟩
        rw [heval, if_neg hg1, if_pos (by omega)]
      · right
        obtain ⟨l, hfil, hsound⟩ := filterInRangeM_total (midiToNoteName tmVal)
          song.constraints.maxNote tmVal mx hparse hmx song.melody.notes hnotes
        have hgo := adjustPitchBoundGo_eval song (midiToNoteName tmVal)
          song.constraints.maxNote l hfil
        have hres : adjustPitchBound song PitchBound.min direction =
            some { song with
              constraints := { song.constraints with minNote := midiToNoteName tmVal, maxNote := song.constraints.maxNote }
              melody := { song.melody with notes := l } } := by
          rw [heval, if_neg hg1, if_neg (by omega)]
          exact hgo
        refine ⟨?_, ?_⟩
        · intro hcon
          rcases hcon with h | h | ⟨_, h⟩ | ⟨hbad, _⟩
          · omega
          · omega
          · omega
          · cases hbad
        · exact ⟨_, tmVal, mx, hres, rfl, fun _ => rfl, fun hbad => (by cases hbad),
            rfl, hparse, hmx, hsound⟩
  · -- bound = max
    have ht := transposeNoteName_eval song.constraints.maxNote (dirSemitones direction)
      song.constraints.allowAccidentals mx hmx
    set tmVal := (if song.constraints.allowAccidentals then mx + dirSemitones direction
      else snapToWhite 12 (mx + dirSemitones direction)
        (if dirSemitones direction > 0 then 1 else -1)) with htmVal
    have hb : 24 ≤ tmVal ∧ tmVal ≤ 132 := by
      rw [htmVal]
      rcases dirSemitones_cases direction with h1 | h1 <;>
        rcases hacc : song.constraints.allowAccidentals with _ | _ <;>
        simp only [if_true, if_false, Bool.false_eq_true] <;>
        first
          | (constructor <;> omega)
          | (have hsb := snapToWhite_bounds (mx + dirSemitones direction)
              (if dirSemitones direction > 0 then 1 else -1) hdira
             constructor <;> omega)
    have hparse : noteNameToMidi (midiToNoteName tmVal) = some tmVal :=
      midi_roundtrip_int tmVal hb.1 hb.2
    have ht' : transposeNoteName song.constraints.maxNote
        (if direction = AdjustDir.up then (1 : Int) else -1)
        song.constraints.allowAccidentals = some (midiToNoteName tmVal) := by
      rw [← dirSemitones_eq]
      exact ht
    have heval := adjustPitchBound_max_eval song direction (midiToNoteName tmVal)
      tmVal mn ht' hparse hmn
    refine ⟨midiToNoteName tmVal, tmVal, ht, hparse, ?_⟩
    by_cases hg1 : tmVal < 36 ∨ 96 < tmVal
    · left
      refine ⟨by tauto, ?_⟩
      rw [heval, if_pos hg1]
    · by_cases hg2 : tmVal < mn
      · left
        refine ⟨Or.inr (Or.inr (Or.inr ⟨rfl, hg2⟩)), ?_⟩
        rw [heval, if_neg hg1, if_pos (by omega)]
      · right
        obtain ⟨l, hfil, hsound⟩ := filterInRangeM_total song.constraints.minNote
          (midiToNoteName tmVal) mn tmVal hmn hparse song.melody.notes hnotes
        have hgo := adjustPitchBoundGo_eval song song.constraints.minNote
          (midiToNoteName tmVal) l hfil
        have hres : adjustPitchBound song PitchBound.max direction =
            some { song with
              constraints := { song.constraints with minNote := song.constraints.minNote, maxNote := midiToNoteName tmVal }
              melody := { song.melody with notes := l } } := by
          rw [heval, if_neg hg1, if_neg (by omega)]
          exact hgo
        refine ⟨?_, ?_⟩
        · intro hcon
          rcases hcon with h | h | ⟨hbad, _⟩ | ⟨_, h⟩
          · omega
          · omega
          · cases hbad
          · omega
        · exact ⟨_, mn, tmVal, hres, rfl, fun hbad => (by cases hbad), fun _ => rfl,
            rfl, hmn, hparse, hsound⟩

/-- Witness for C4 at the spec's bound-crossing scenario: constraints
`{minNote := "C4", maxNote := "C4"}`; adjusting the min bound up transposes
to `D4` (pitch 62), which would exceed the max bound, so the call is a
rejected no-op (left disjunct). -/
theorem claim_C4_witness :
    ∃ t tm,
      transposeNoteName
        (chosenBound { DEFAULT_SONG with
          constraints := { DEFAULT_SONG.constraints with maxNote := "C4" } } PitchBound.min)
        (dirSemitones AdjustDir.up)
        ({ DEFAULT_SONG with
          constraints := { DEFAULT_SONG.constraints with maxNote := "C4" } } : Song).constraints.allowAccidentals = some t ∧
      noteNameToMidi t = some tm ∧
      (((tm < 36 ∨ 96 < tm ∨ (PitchBound.min = PitchBound.min ∧ 60 < tm) ∨
          (PitchBound.min = PitchBound.max ∧ tm < 60)) ∧
        adjustPitchBound { DEFAULT_SONG with
          constraints := { DEFAULT_SONG.constraints with maxNote := "C4" } }
          PitchBound.min AdjustDir.up =
          some { DEFAULT_SONG with
            constraints := { DEFAULT_SONG.constraints with maxNote := "C4" } }) ∨
       (¬(tm < 36 ∨ 96 < tm ∨ (PitchBound.min = PitchBound.min ∧ 60 < tm) ∨
          (PitchBound.min = PitchBound.max ∧ tm < 60)) ∧
        ∃ song' nmn nmx,
          adjustPitchBound { DEFAULT_SONG with
            constraints := { DEFAULT_SONG.constraints with maxNote := "C4" } }
            PitchBound.min AdjustDir.up = some song' ∧
          chosenBound song' PitchBound.min = t ∧
          (PitchBound.min = PitchBound.min →
            song'.constraints.maxNote =
              ({ DEFAULT_SONG with
                constraints := { DEFAULT_SONG.constraints with maxNote := "C4" } } : Song).constraints.maxNote) ∧
          (PitchBound.min = PitchBound.max →
            song'.constraints.minNote =
              ({ DEFAULT_SONG with
                constraints := { DEFAULT_SONG.constraints with maxNote := "C4" } } : Song).constraints.minNote) ∧
          song'.drums =
            ({ DEFAULT_SONG with
              constraints := { DEFAULT_SONG.constraints with maxNote := "C4" } } : Song).drums ∧
          noteNameToMidi song'.constraints.minNote = some nmn ∧
          noteNameToMidi song'.constraints.maxNote = some nmx ∧
          ∀ n ∈ song'.melody.notes, ∃ v, noteNameToMidi n.note = some v ∧
            nmn ≤ v ∧ v ≤ nmx)) :=
  claim_C4_adjustPitchBound_spec
    { DEFAULT_SONG with constraints := { DEFAULT_SONG.constraints with maxNote := "C4" } }
    PitchBound.min AdjustDir.up 60 60 (by decide) (by decide) (by decide) (by decide)
    (by decide) (by decide) (by intro n hn; simp [DEFAULT_SONG] at hn)

/-! ## Helper lemmas: transport state machine -/

lemma deliverAll_stopped (song : Song) (sps lookahead : Rat) (fuel : Nat) :
    ∀ (events : List PendingEvent) (e : EngineState),
      e.transport = TransportState.stopped →
      (deliverAll song sps lookahead fuel e events).2 = [] ∧
      (deliverAll song sps lookahead fuel e events).1.transport = TransportState.stopped := by
  intro events
  induction events with
  | nil => intro e he; exact ⟨rfl, he⟩
  | cons ev evs ih =>
    intro e he
    have hne : ¬(e.transport = TransportState.playing) := by
      rw [he]
      intro hc
      cases hc
    have hstep : (deliverEvent song sps lookahead fuel e ev).1.transport =
        TransportState.stopped ∧ (deliverEvent song sps lookahead fuel e ev).2 = [] := by
      rcases ev with k | now | _
      · exact ⟨he, by simp [deliverEvent, hne]⟩
      · simp [deliverEvent, hne, he]
      · simp [deliverEvent, stopEngine]
    obtain ⟨h1, h2⟩ := hstep
    have hrest := ih (deliverEvent song sps lookahead fuel e ev).1 h1
    refine ⟨?_, ?_⟩
    · show (deliverEvent song sps lookahead fuel e ev).2 ++
        (deliverAll song sps lookahead fuel
          (deliverEvent song sps lookahead fuel e ev).1 evs).2 = []
      rw [h2, hrest.1]
      rfl
    · show (deliverAll song sps lookahead fuel
        (deliverEvent song sps lookahead fuel e ev).1 evs).1.transport =
        TransportState.stopped
      exact hrest.2

/-- C9: after `stop()` returns, no further `onStep` callback fires, for every
interleaving of pending timer callbacks (`setTimeout` step reports, queued
scheduler ticks, further `stop()` calls) delivered afterwards: each pending
`onStep` body checks the still-playing flag and is suppressed in the Stopped
state, and nothing in such a trace can leave Stopped, so the list of reported
steps after `stop()` is empty from any prior engine state. -/
theorem claim_C9_stop_suppresses_onStep (song : Song) (sps lookahead : Rat)
    (fuel : Nat) (e : EngineState) (events : List PendingEvent) :
    (deliverAll song sps lookahead fuel (stopEngine e) events).2 = [] ∧
    (deliverAll song sps lookahead fuel (stopEngine e) events).1.transport =
      TransportState.stopped :=
  deliverAll_stopped song sps lookahead fuel events (stopEngine e) rfl

/-- C1 evaluation at the failing input: the committed `play(song, onStep)`
captures its Song argument, so an edit made during playback (here: toggling a
kick onto step 2, one tick after play starts, at bpm 60 with one step per
beat, four steps total) never reaches the scheduler — the snapshot run
schedules no event at all, while the reader-based scheduler the spec (and the
caller in page.tsx) prescribe schedules the added kick at its step time
2.05s. -/
theorem claim_C1_snapshot_vs_reader :
    playRunSnapshot { DEFAULT_SONG with bpm := 60, stepsPerBeat := 1, bars := 1 }
      0 10 [0, 1, 2, 3] = [] ∧
    playRunReader (fun i =>
        if i = 0 then { DEFAULT_SONG with bpm := 60, stepsPerBeat := 1, bars := 1 }
        else toggleDrumHit ("k")
          { DEFAULT_SONG with bpm := 60, stepsPerBeat := 1, bars := 1 } 2 DrumId.kick)
      0 10 [0, 1, 2, 3] =
      [AudioEvent.drum DrumId.kick (41 / 20)] := by
  constructor
  · norm_num [playRunSnapshot, runTicks, tickWhile, scheduleStep, advanceCursor,
      totalSteps, DEFAULT_SONG, List.filter]
  · norm_num [playRunReader, runTicks, tickWhile, scheduleStep, advanceCursor,
      totalSteps, DEFAULT_SONG, toggleDrumHit, findIndexP, hitMatches,
      List.filter]
